import Mathlib

/-
Verification of the image-resolution routine of the Kaleidoscope-India
repository (src/app.py).  The Python code is shallowly embedded: strings
are Lean `String`s (lists of characters, ASCII semantics for the
regex/lower-casing helpers), filesystem paths are lists of path segments,
and the filesystem itself is an explicit finite structure of files and
directories over which the probing functions run.
-/

namespace AppImg

/-! ### Character helpers (ASCII model of the Python string primitives) -/

/-- Model of the regex class `[a-z0-9]` used by `_norm` (app.py:83). -/
def isAlnumL (c : Char) : Bool :=
  (97 ≤ c.toNat && c.toNat ≤ 122) || (48 ≤ c.toNat && c.toNat ≤ 57)

/-- Model of the regex class `[A-Za-z0-9]` used by `_folder_variants` (app.py:125). -/
def isAlnumFull (c : Char) : Bool :=
  (65 ≤ c.toNat && c.toNat ≤ 90) || (97 ≤ c.toNat && c.toNat ≤ 122) ||
    (48 ≤ c.toNat && c.toNat ≤ 57)

/-- ASCII whitespace, modelling Python `\s` and `str.strip()`. -/
def isWS (c : Char) : Bool :=
  c.toNat == 32 || c.toNat == 9 || c.toNat == 10 || c.toNat == 13 ||
    c.toNat == 11 || c.toNat == 12

/-- ASCII lower-casing of one character, modelling Python `str.lower`. -/
def pyLowerChar (c : Char) : Char :=
  if 65 ≤ c.toNat && c.toNat ≤ 90 then Char.ofNat (c.toNat + 32) else c

/-- Python `str.lower()` (ASCII fragment). -/
def pyLower (s : String) : String := ⟨s.data.map pyLowerChar⟩

/-- Replace every maximal run of characters satisfying `p` by a single
underscore, modelling `re.sub(p_class_regex, "_", ·)`.  The flag records
whether the previous character was part of such a run (its replacement
underscore has already been emitted). -/
def runsGo (p : Char → Bool) : Bool → List Char → List Char
  | _, [] => []
  | prev, c :: cs =>
    if p c then
      (if prev then runsGo p true cs else '_' :: runsGo p true cs)
    else c :: runsGo p false cs

/-- Drop the maximal trailing run of characters satisfying `p`
(one half of Python `str.strip`). -/
def dropTrail (p : Char → Bool) : List Char → List Char
  | [] => []
  | c :: cs =>
    let r := dropTrail p cs
    if r.isEmpty then (if p c then [] else [c]) else c :: r

/-- Python `str.strip(chars)`: remove leading and trailing characters
satisfying `p`. -/
def stripBoth (p : Char → Bool) (l : List Char) : List Char :=
  dropTrail p (l.dropWhile p)

/-- Python `str.strip()` on whitespace. -/
def pyStrip (s : String) : String := ⟨stripBoth isWS s.data⟩

/-! Structural predicates on character lists, used to state the
invariants of the normalization pipeline. -/

/-- Is the first character an underscore? -/
def headU : List Char → Bool
  | [] => false
  | c :: _ => c == '_'

/-- Is the last character an underscore? -/
def lastU : List Char → Bool
  | [] => false
  | c :: cs => if cs.isEmpty then c == '_' else lastU cs

/-- No two adjacent underscores anywhere in the list. -/
def noDU : List Char → Bool
  | [] => true
  | c :: cs => !(c == '_' && headU cs) && noDU cs

/-- Every character either fails `p` or is an underscore. -/
def okAU (p : Char → Bool) (l : List Char) : Bool :=
  l.all (fun c => !p c || c == '_')

/-- Character class of `re.sub(r"[^a-z0-9]+", "_", ·)`. -/
def pNA : Char → Bool := fun c => !isAlnumL c

/-- Character class of `re.sub(r"_+", "_", ·)` and of `.strip("_")`. -/
def pU : Char → Bool := fun c => c == '_'

/-- Embeds `_norm` (app.py:83):
`re.sub(r"_+", "_", re.sub(r"[^a-z0-9]+", "_", str(s).lower())).strip("_")`,
acting on the character list. -/
def normL (l : List Char) : List Char :=
  stripBoth pU (runsGo pU false (runsGo pNA false (l.map pyLowerChar)))

/-- Embeds `_norm` (app.py:83) on strings. -/
def norm (s : String) : String := ⟨normL s.data⟩

/-! ### Tokenization -/

/-- Embeds `STOP_WORDS` (app.py:114-117). -/
def STOP_WORDS : List String :=
  ["temple", "mandir", "fort", "palace", "gate", "park", "lake", "beach",
   "museum", "national", "state", "monument", "ji", "sri", "shri", "maa",
   "mata", "baba", "the"]

/-- Python `str.split(sep)` for a one-character separator, with an
accumulator for the current field (kept in reverse). -/
def splitChar (sep : Char) : List Char → List Char → List String
  | [], acc => [String.mk acc.reverse]
  | c :: cs, acc =>
    if c == sep then String.mk acc.reverse :: splitChar sep cs []
    else splitChar sep cs (c :: acc)

/-- Keep one copy of every element, modelling a Python `set` of strings
for the purpose of counting distinct elements. -/
def dedupStr : List String → List String
  | [] => []
  | t :: ts => if ts.contains t then dedupStr ts else t :: dedupStr ts

/-- Embeds `_tokset` (app.py:118-119):
`{t for t in _norm(s).split("_") if t and t not in STOP_WORDS}`. -/
def tokset (s : String) : List String :=
  dedupStr ((splitChar '_' (norm s).data []).filter
    (fun t => t ≠ "" && !STOP_WORDS.contains t))

/-- Size of the intersection of two token sets (both duplicate-free),
modelling `len(a & b)`. -/
def interCount (a b : List String) : Nat :=
  (a.filter (fun t => b.contains t)).length

/-- Embeds `.replace("_", "")` as used for `stem_flat_subs` (app.py:150)
and `cand_flat` (app.py:169). -/
def flatUnd (s : String) : String := ⟨s.data.filter (fun c => !(c == '_'))⟩

/-! ### Substring / startswith (Python `in` and `str.startswith`) -/

/-- Does `pat` occur at the head of `l`? -/
def startsWithL : List Char → List Char → Bool
  | [], _ => true
  | _ :: _, [] => false
  | p :: ps, c :: cs => p == c && startsWithL ps cs

/-- Python `s.startswith(pat)`. -/
def strStartsWith (s pat : String) : Bool := startsWithL pat.data s.data

/-- Python substring containment `pat in s` on character lists. -/
def isSubstr (pat : List Char) : List Char → Bool
  | [] => pat.isEmpty
  | c :: cs => startsWithL pat (c :: cs) || isSubstr pat cs

/-! ### Filesystem model

A path is a list of segments.  A file is a directory plus a stem and an
extension (the extension carries its leading dot, as `pathlib.Path.suffix`
does).  `dirs` lists the existing directories.  `path.exists()` holds for
files and directories alike, matching `pathlib.Path.exists`. -/

structure FileEnt where
  dir : List String
  stem : String
  ext : String
deriving DecidableEq

structure FS where
  files : List FileEnt
  dirs : List (List String)
deriving DecidableEq

/-- Full segment path of a file. -/
def fullPath (f : FileEnt) : List String := f.dir ++ [f.stem ++ f.ext]

/-- `pathlib.Path.exists()`: true for directories and files. -/
def pathExists (fs : FS) (p : List String) : Bool :=
  fs.dirs.contains p || fs.files.any (fun f => fullPath f == p)

/-- Is `q` strictly below the directory `fo` (any depth)? -/
def strictlyUnder (fo q : List String) : Bool :=
  decide (fo.length < q.length) && q.take fo.length == fo

/-- `folder.rglob("*")` restricted to regular files, in filesystem order. -/
def rglobFiles (fs : FS) (fo : List String) : List FileEnt :=
  fs.files.filter (fun f => strictlyUnder fo (fullPath f))

/-- `str(path)` with POSIX separators; the empty list models `Path(".")`
as a join root, under which joining is the identity. -/
def renderPath : List String → String
  | [] => ""
  | [s] => s
  | s :: rest => s ++ "/" ++ renderPath rest

/-- Segments of a textual relative/absolute path (split on `/`). -/
def parsePath (v : String) : List String := splitChar '/' v.data []

/-- `pathlib.Path(v).is_absolute()` on POSIX: leading slash. -/
def isAbs (v : String) : Bool := startsWithL ['/'] v.data

/-! ### The resolver constants (app.py:17-21) -/

/-- Embeds `IMG_ROOT_ATTR = pathlib.Path("images_verified")`. -/
def IMG_ROOT_ATTR : List String := ["images_verified"]

/-- Embeds `IMG_ROOT_DISH = pathlib.Path("images_verified_dishes")`. -/
def IMG_ROOT_DISH : List String := ["images_verified_dishes"]

/-- Embeds `IMG_EXTS` (app.py:21). -/
def IMG_EXTS : List String := [".jpg", ".jpeg", ".png", ".webp", ".gif"]

/-! ### Folder discovery and the two matching passes (app.py:121-181) -/

/-- Embeds `_folder_variants` (app.py:121-126): the raw name, the name
with whitespace runs replaced by underscores after stripping, and that
with all characters outside `[A-Za-z0-9_]` removed. -/
def folder_variants (name : String) : List String :=
  let underscored : String := ⟨runsGo isWS false (stripBoth isWS name.data)⟩
  let stripped : String := ⟨underscored.data.filter (fun c => isAlnumFull c || c == '_')⟩
  [name, underscored, stripped]

/-- State-directory discovery (app.py:132-137): the first spelling variant
of the state that exists under the base folder. -/
def stateDirFind (fs : FS) (basefolder : List String) (state : String) :
    Option (List String) :=
  (folder_variants state).findSome? (fun sname =>
    let cand := basefolder ++ [sname]
    if pathExists fs cand then some cand else none)

/-- City-directory discovery (app.py:141-146), under the state directory. -/
def cityDirFind (fs : FS) (stateDir : List String) (city : String) :
    Option (List String) :=
  (folder_variants city).findSome? (fun cname =>
    let cand := stateDir ++ [cname]
    if pathExists fs cand then some cand else none)

/-- Embeds `_exact_in` (app.py:152-160): first normalized stem and
extension whose file exists directly in the folder. -/
def exact_in (fs : FS) (folder : Option (List String)) (stemNorms : List String) :
    Option (List String) :=
  match folder with
  | none => none
  | some fo =>
    if pathExists fs fo then
      stemNorms.findSome? (fun stem =>
        IMG_EXTS.findSome? (fun ext =>
          let p := fo ++ [stem ++ ext]
          if pathExists fs p then some p else none))
    else none

/-- Embeds `_loose_in` (app.py:162-173): scan image files below the folder
and return the first one whose normalized stem shares at least two
non-stop-word tokens with some candidate stem, or whose underscore-free
form is in a substring relation with the candidate's underscore-free form. -/
def loose_in (fs : FS) (folder : Option (List String)) (stems : List String) :
    Option (List String) :=
  match folder with
  | none => none
  | some fo =>
    if pathExists fs fo then
      let stemNorms := stems.map norm
      let stemToksets := stems.map tokset
      let stemFlats := stemNorms.map flatUnd
      (rglobFiles fs fo).findSome? (fun f =>
        if IMG_EXTS.contains (pyLower f.ext) then
          let candNorm := norm f.stem
          let candToks := tokset candNorm
          let candFlat := flatUnd candNorm
          if (stemToksets.zip stemFlats).any (fun pr =>
              decide (2 ≤ interCount candToks pr.1) ||
                (pr.2 ≠ "" &&
                  (isSubstr pr.2.data candFlat.data ||
                   isSubstr candFlat.data pr.2.data)))
          then some (fullPath f) else none
        else none)
    else none

/-- Embeds `_find_in_folder_strict` (app.py:128-181).  The `kind` argument
is carried but unused, as in the source. -/
def find_in_folder_strict (fs : FS) (basefolder : List String)
    (state city : String) (stems : List String) (_kind : String) :
    Option (List String) :=
  if pathExists fs basefolder then
    match stateDirFind fs basefolder state with
    | none => none
    | some sd =>
      let cityd := cityDirFind fs sd city
      let stemNorms := stems.map norm
      match exact_in fs cityd stemNorms with
      | some hit => some hit
      | none =>
        match exact_in fs (some sd) stemNorms with
        | some hit => some hit
        | none =>
          match loose_in fs cityd stems with
          | some hit => some hit
          | none => loose_in fs (some sd) stems
  else none

/-! ### resolve_image (app.py:183-243) -/

/-- `kind = "dish" if subdir == "dishes" else "attr"` (app.py:195). -/
def kindOf (subdir : String) : String := if subdir == "dishes" then "dish" else "attr"

/-- The kind-specific verified-image root (app.py:209, 237). -/
def kindRoot (kind : String) : List String :=
  if kind == "dish" then IMG_ROOT_DISH else IMG_ROOT_ATTR

/-- The four probed roots for a CSV-declared relative path (app.py:207-212):
current directory, kind-specific verified root, `images/<subdir>`, `images`. -/
def csvRoots (kind subdir : String) : List (List String) :=
  [[], kindRoot kind, ["images", subdir], ["images"]]

/-- The probing loop of app.py:213-216: first root under which the value
exists; an absolute value bypasses the join. -/
def probeRoots (fs : FS) (roots : List (List String)) (v : String) :
    Option (List String) :=
  roots.findSome? (fun r =>
    let p := if isAbs v then parsePath v else r ++ parsePath v
    if pathExists fs p then some p else none)

/-- Embeds `_stem_candidates` (app.py:221-230). -/
def stem_candidates (attraction city state : String) (dish_name : Option String)
    (kind : String) : List String :=
  let aN := norm attraction
  let cN := norm city
  let sN := norm state
  let base := [aN ++ "_" ++ cN ++ "_" ++ sN, aN ++ "_" ++ cN, aN]
  if kind == "dish" then
    let withDish :=
      match dish_name with
      | some dn =>
        if dn = "" then base
        else
          let dN := norm dn
          [dN ++ "_" ++ cN ++ "_" ++ sN, dN ++ "_" ++ cN, dN] ++ base
      | none => base
    withDish ++
      [aN ++ "_" ++ cN ++ "_" ++ sN ++ "_dish", aN ++ "_" ++ cN ++ "_dish",
       aN ++ "_dish"]
  else base

/-- The stem list built in app.py:232-235: the caller hint (when a
non-empty string) followed by the `_stem_candidates` list. -/
def buildStems (local_base attraction city state : String)
    (dish : Option String) (kind : String) : List String :=
  (if local_base = "" then [] else [local_base]) ++
    stem_candidates attraction city state dish kind

/-- Step 3 of the resolver (app.py:220-243): strict local search against
the primary kind root, retried against `images/<subdir>`. -/
def localSearch (fs : FS) (subdir attraction city state local_base : String)
    (dish : Option String) (kind : String) : Option String :=
  let stems := buildStems local_base attraction city state dish kind
  match find_in_folder_strict fs (kindRoot kind) state city stems kind with
  | some hit => some (renderPath hit)
  | none =>
    (find_in_folder_strict fs ["images", subdir] state city stems kind).map
      renderPath

/-- Steps 2-3 of the resolver (app.py:202-243).  A `none` CSV value models
both an absent field and a non-string value (the `isinstance` guard). -/
def csvOrSearch (fs : FS) (csv_val : Option String)
    (subdir attraction city state local_base : String) (dish : Option String)
    (kind : String) : Option String :=
  match csv_val with
  | some cv =>
    let v := pyStrip cv
    if v ≠ "" ∧ pyLower v ≠ "nan" then
      if strStartsWith v "http://" || strStartsWith v "https://" then some v
      else
        match probeRoots fs (csvRoots kind subdir) v with
        | some p => some (renderPath p)
        | none => none
    else localSearch fs subdir attraction city state local_base dish kind
  | none => localSearch fs subdir attraction city state local_base dish kind

/-- Embeds `resolve_image` (app.py:183-243).  The two override arguments
model `overrides.get("dish_image_override_url")` and
`overrides.get("attraction_image_override_url")`; `none` covers both an
absent key and a non-string value. -/
def resolve_image (fs : FS) (csv_val : Option String) (subdir : String)
    (attraction city state local_base : String) (dish : Option String)
    (dishOverride attrOverride : Option String) : Option String :=
  let kind := kindOf subdir
  let override_url := if kind == "dish" then dishOverride else attrOverride
  match override_url with
  | some o =>
    if pyStrip o ≠ "" ∧ pyLower (pyStrip o) ≠ "nan" then some (pyStrip o)
    else csvOrSearch fs csv_val subdir attraction city state local_base dish kind
  | none => csvOrSearch fs csv_val subdir attraction city state local_base dish kind

/-! ### The candidate-stem order claimed by the specification

Modelled from the spec (§4.1 step 3 and its restatement in the claim):
the caller hint; then dish-name+city+state, dish-name+city, dish-name
alone, each of these dish-name combinations together with its
`_dish`-suffixed variant; then attraction-name+city+state,
attraction-name+city, attraction-name alone.  Used only to compare the
spec's claimed order against the order the code builds. -/
def specDishStems (hint attraction city state dish : String) : List String :=
  let aN := norm attraction
  let cN := norm city
  let sN := norm state
  let dN := norm dish
  (if hint = "" then [] else [hint]) ++
    [dN ++ "_" ++ cN ++ "_" ++ sN, dN ++ "_" ++ cN, dN,
     dN ++ "_" ++ cN ++ "_" ++ sN ++ "_dish", dN ++ "_" ++ cN ++ "_dish",
     dN ++ "_dish"] ++
    [aN ++ "_" ++ cN ++ "_" ++ sN, aN ++ "_" ++ cN, aN]

/-! ### Concrete filesystems used in counterexamples and witnesses -/

/-- The empty filesystem. -/
def fsEmpty : FS := ⟨[], []⟩

/-- A filesystem whose attraction root holds `images_verified/S/a_c_s.jpg`. -/
def fsExact : FS :=
  ⟨[⟨["images_verified", "S"], "a_c_s", ".jpg"⟩],
   [["images_verified"], ["images_verified", "S"]]⟩

/-- One folder `d` holding the single file `temple.jpg`. -/
def fsTemple : FS := ⟨[⟨["d"], "temple", ".jpg"⟩], [["d"]]⟩

/-- `images/attractions/x.jpg` exists; the earlier probed roots hold
nothing. -/
def fsImgAttr : FS :=
  ⟨[⟨["images", "attractions"], "x", ".jpg"⟩],
   [["images"], ["images", "attractions"]]⟩

/-- `images_verified/S/c/a.jpg` inside an existing state and city folder. -/
def fsCity : FS :=
  ⟨[⟨["images_verified", "S", "c"], "a", ".jpg"⟩],
   [["images_verified"], ["images_verified", "S"],
    ["images_verified", "S", "c"]]⟩

/-- The attraction root exists but holds no state folder. -/
def fsRootOnly : FS := ⟨[], [["images_verified"]]⟩

/-! ## Lemmas about the normalization pipeline -/

theorem headU_runsGo_true (p : Char → Bool) (hp : p '_' = true) :
    ∀ l : List Char, headU (runsGo p true l) = false := by
  intro l
  induction l with
  | nil => rfl
  | cons c cs ih =>
    cases h : p c with
    | true => simpa [runsGo, h] using ih
    | false =>
      have hc : (c == '_') = false := by
        cases hcc : (c == '_')
        · rfl
        · have hce : c = '_' := by simpa using hcc
          rw [hce, hp] at h
          cases h
      simp [runsGo, h, headU, hc]

theorem noDU_runsGo (p : Char → Bool) (hp : p '_' = true) :
    ∀ (l : List Char) (b : Bool), noDU (runsGo p b l) = true := by
  intro l
  induction l with
  | nil => intro b; rfl
  | cons c cs ih =>
    intro b
    cases h : p c with
    | true =>
      cases b with
      | true => simpa [runsGo, h] using ih true
      | false =>
        simp [runsGo, h, noDU, headU_runsGo_true p hp cs, ih true]
    | false =>
      have hc : (c == '_') = false := by
        cases hcc : (c == '_')
        · rfl
        · have hce : c = '_' := by simpa using hcc
          rw [hce, hp] at h
          cases h
      simp [runsGo, h, noDU, hc, ih false]

theorem okAU_runsGo (p : Char → Bool) :
    ∀ (l : List Char) (b : Bool), okAU p (runsGo p b l) = true := by
  intro l
  induction l with
  | nil => intro b; rfl
  | cons c cs ih =>
    intro b
    cases h : p c with
    | true =>
      cases b with
      | true => simpa [runsGo, h] using ih true
      | false => simpa [runsGo, h, okAU, List.all_cons] using ih true
    | false => simpa [runsGo, h, okAU, List.all_cons] using ih false

theorem headU_nil : headU [] = false := rfl

theorem noDU_nil : noDU [] = true := rfl

theorem lastU_nil : lastU [] = false := rfl

theorem dropTrail_nil (p : Char → Bool) : dropTrail p [] = [] := rfl

theorem headU_cons (c : Char) (cs : List Char) : headU (c :: cs) = (c == '_') := rfl

theorem noDU_cons (c : Char) (cs : List Char) :
    noDU (c :: cs) = (!(c == '_' && headU cs) && noDU cs) := rfl

theorem lastU_cons (c : Char) (cs : List Char) :
    lastU (c :: cs) = if cs.isEmpty then c == '_' else lastU cs := rfl

theorem runsGo_cons (p : Char → Bool) (b : Bool) (c : Char) (cs : List Char) :
    runsGo p b (c :: cs) =
      if p c then (if b then runsGo p true cs else '_' :: runsGo p true cs)
      else c :: runsGo p false cs := rfl

theorem dropTrail_eq (p : Char → Bool) (c : Char) (cs : List Char) :
    dropTrail p (c :: cs) =
      if (dropTrail p cs).isEmpty then (if p c then [] else [c])
      else c :: dropTrail p cs := rfl

theorem okAU_cons_parts {p : Char → Bool} {c : Char} {cs : List Char}
    (h : okAU p (c :: cs) = true) :
    (!p c || c == '_') = true ∧ okAU p cs = true := by
  simp only [okAU, List.all_cons, Bool.and_eq_true] at h
  exact h

theorem noDU_cons_parts {c : Char} {cs : List Char} (h : noDU (c :: cs) = true) :
    (c == '_' && headU cs) = false ∧ noDU cs = true := by
  rw [noDU_cons, Bool.and_eq_true, Bool.not_eq_true'] at h
  exact h

theorem runsGo_fix (p : Char → Bool) (_hp : p '_' = true) :
    ∀ (l : List Char) (b : Bool), (b = true → headU l = false) →
      okAU p l = true → noDU l = true → runsGo p b l = l := by
  intro l
  induction l with
  | nil => intro b _ _ _; rfl
  | cons c cs ih =>
    intro b hb hok hnd
    obtain ⟨hok1, hokt⟩ := okAU_cons_parts hok
    obtain ⟨hnd1, hndt⟩ := noDU_cons_parts hnd
    cases h : p c with
    | false =>
      rw [runsGo_cons, if_neg (by simp [h]), ih false (by simp) hokt hndt]
    | true =>
      have hc : (c == '_') = true := by
        rw [h] at hok1
        simpa using hok1
      have hce : c = '_' := by simpa using hc
      cases b with
      | true =>
        have hh := hb rfl
        rw [headU_cons, hc] at hh
        cases hh
      | false =>
        have hcs : headU cs = false := by
          rw [hc] at hnd1
          simpa using hnd1
        rw [runsGo_cons, if_pos h, if_neg (by simp),
            ih true (fun _ => hcs) hokt hndt, hce]

theorem noDU_tail {c : Char} {cs : List Char} (h : noDU (c :: cs) = true) :
    noDU cs = true := (noDU_cons_parts h).2

theorem headU_dropWhile_pU : ∀ l : List Char, headU (l.dropWhile pU) = false := by
  intro l
  induction l with
  | nil => rfl
  | cons c cs ih =>
    cases h : pU c with
    | true => simpa [List.dropWhile_cons, h] using ih
    | false =>
      have hc : (c == '_') = false := h
      simp [List.dropWhile_cons, h, headU_cons, hc]

theorem noDU_dropWhile (q : Char → Bool) :
    ∀ l : List Char, noDU l = true → noDU (l.dropWhile q) = true := by
  intro l
  induction l with
  | nil => intro h; exact h
  | cons c cs ih =>
    intro h
    cases hq : q c with
    | true => simpa [List.dropWhile_cons, hq] using ih (noDU_tail h)
    | false => simpa [List.dropWhile_cons, hq] using h

theorem okAU_dropWhile (p q : Char → Bool) :
    ∀ l : List Char, okAU p l = true → okAU p (l.dropWhile q) = true := by
  intro l
  induction l with
  | nil => intro h; exact h
  | cons c cs ih =>
    intro h
    obtain ⟨h1, ht⟩ := okAU_cons_parts h
    cases hq : q c with
    | true => simpa [List.dropWhile_cons, hq] using ih ht
    | false => simpa [List.dropWhile_cons, hq] using h

theorem headU_dropTrail (q : Char → Bool) (l : List Char)
    (h : headU (dropTrail q l) = true) : headU l = true := by
  cases l with
  | nil => simpa [dropTrail] using h
  | cons c cs =>
    cases hr : dropTrail q cs with
    | nil =>
      cases hq : q c with
      | true => simp [dropTrail_eq, hr, hq, headU_nil] at h
      | false =>
        rw [dropTrail_eq, hr] at h
        simp only [List.isEmpty_nil, if_true] at h
        rw [if_neg (by simp [hq])] at h
        rw [headU_cons] at h ⊢
        exact h
    | cons d ds =>
      rw [dropTrail_eq, hr] at h
      simp only [List.isEmpty_cons] at h
      rw [if_neg (by simp)] at h
      rw [headU_cons] at h ⊢
      exact h

theorem noDU_dropTrail (q : Char → Bool) :
    ∀ l : List Char, noDU l = true → noDU (dropTrail q l) = true := by
  intro l
  induction l with
  | nil => intro h; exact h
  | cons c cs ih =>
    intro h
    obtain ⟨h1, ht⟩ := noDU_cons_parts h
    rw [dropTrail_eq]
    cases hr : dropTrail q cs with
    | nil =>
      simp only [List.isEmpty_nil, if_true]
      cases hq : q c with
      | true => simp [hq, noDU_nil]
      | false =>
        rw [if_neg (by simp [hq]), noDU_cons]
        simp [headU_nil, noDU_nil]
    | cons d ds =>
      simp only [List.isEmpty_cons]
      rw [if_neg (by simp)]
      have hnd : noDU (d :: ds) = true := by rw [← hr]; exact ih ht
      have hdU : (c == '_' && headU (d :: ds)) = false := by
        cases hcu : (c == '_') with
        | false => simp [hcu]
        | true =>
          cases hdu : headU (d :: ds) with
          | false => simp [hdu]
          | true =>
            have hcs : headU cs = true := by
              apply headU_dropTrail q cs
              rw [hr]
              exact hdu
            rw [hcu, hcs] at h1
            cases h1
      rw [noDU_cons, hdU, hnd]
      rfl

theorem okAU_dropTrail (p q : Char → Bool) :
    ∀ l : List Char, okAU p l = true → okAU p (dropTrail q l) = true := by
  intro l
  induction l with
  | nil => intro h; exact h
  | cons c cs ih =>
    intro h
    obtain ⟨h1, ht⟩ := okAU_cons_parts h
    rw [dropTrail_eq]
    cases hr : dropTrail q cs with
    | nil =>
      simp only [List.isEmpty_nil, if_true]
      cases hq : q c with
      | true => simp [hq, okAU]
      | false =>
        rw [if_neg (by simp [hq])]
        simp [okAU, List.all_cons, h1]
    | cons d ds =>
      simp only [List.isEmpty_cons]
      rw [if_neg (by simp)]
      have hih := ih ht
      rw [hr] at hih
      simp only [okAU, List.all_cons, Bool.and_eq_true] at hih ⊢
      exact ⟨h1, hih⟩

theorem lastU_dropTrail_pU : ∀ l : List Char, lastU (dropTrail pU l) = false := by
  intro l
  induction l with
  | nil => rfl
  | cons c cs ih =>
    rw [dropTrail_eq]
    cases hr : dropTrail pU cs with
    | nil =>
      simp only [List.isEmpty_nil, if_true]
      cases hq : pU c with
      | true => simp [hq, lastU_nil]
      | false =>
        rw [if_neg (by simp [hq])]
        have hc : (c == '_') = false := hq
        simp [lastU_cons, hc]
    | cons d ds =>
      simp only [List.isEmpty_cons]
      rw [if_neg (by simp)]
      have hih := ih
      rw [hr] at hih
      simpa [lastU_cons] using hih

theorem dropWhile_pU_fix (l : List Char) (h : headU l = false) :
    l.dropWhile pU = l := by
  cases l with
  | nil => rfl
  | cons c cs =>
    have hc : pU c = false := h
    simp [List.dropWhile_cons, hc]

theorem dropTrail_pU_fix : ∀ l : List Char, lastU l = false → dropTrail pU l = l := by
  intro l
  induction l with
  | nil => intro _; rfl
  | cons c cs ih =>
    intro h
    cases cs with
    | nil =>
      have hc : pU c = false := by
        have : (c == '_') = false := by simpa [lastU_cons] using h
        exact this
      simp [dropTrail_eq, dropTrail_nil, hc]
    | cons d ds =>
      have hl : lastU (d :: ds) = false := by simpa [lastU_cons] using h
      have hih := ih hl
      rw [dropTrail_eq, hih]
      simp

theorem pyLowerChar_fix (c : Char) (h : (isAlnumL c || c == '_') = true) :
    pyLowerChar c = c := by
  rcases Bool.or_eq_true _ _ |>.mp h with h1 | h2
  · simp only [isAlnumL, Bool.or_eq_true, Bool.and_eq_true, decide_eq_true_eq] at h1
    unfold pyLowerChar
    rw [if_neg]
    intro hcond
    simp only [Bool.and_eq_true, decide_eq_true_eq] at hcond
    omega
  · have hce : c = '_' := by simpa using h2
    subst hce
    decide

theorem map_pyLowerChar_fix :
    ∀ l : List Char, okAU pNA l = true → l.map pyLowerChar = l := by
  intro l
  induction l with
  | nil => intro _; rfl
  | cons c cs ih =>
    intro h
    have h1 : (isAlnumL c || c == '_') = true := by
      simp [okAU, List.all_cons, pNA] at h
      rcases h.1 with h1 | h1 <;> simp [h1]
    have ht : okAU pNA cs = true := by
      simp [okAU, List.all_cons] at h
      simp [okAU, List.all_eq_true]
      exact h.2
    simp [List.map_cons, pyLowerChar_fix c h1, ih ht]

theorem okAU_pU_true : ∀ l : List Char, okAU pU l = true := by
  intro l
  simp only [okAU, List.all_eq_true, pU]
  intro c _
  cases h : (c == '_') <;> simp [h]

/-- The output of the normalization pipeline consists of lowercase
alphanumerics and isolated underscores, and neither starts nor ends with
an underscore. -/
theorem normL_props (l : List Char) :
    okAU pNA (normL l) = true ∧ noDU (normL l) = true ∧
      headU (normL l) = false ∧ lastU (normL l) = false := by
  have hpNA : pNA '_' = true := by decide
  have hpU : pU '_' = true := by decide
  have h1 : okAU pNA (runsGo pNA false (l.map pyLowerChar)) = true :=
    okAU_runsGo pNA (l.map pyLowerChar) false
  have h2 : noDU (runsGo pNA false (l.map pyLowerChar)) = true :=
    noDU_runsGo pNA hpNA (l.map pyLowerChar) false
  have hfix : runsGo pU false (runsGo pNA false (l.map pyLowerChar)) =
      runsGo pNA false (l.map pyLowerChar) :=
    runsGo_fix pU hpU _ false (by simp) (okAU_pU_true _) h2
  unfold normL stripBoth
  rw [hfix]
  refine ⟨okAU_dropTrail pNA pU _ (okAU_dropWhile pNA pU _ h1),
          noDU_dropTrail pU _ (noDU_dropWhile pU _ h2), ?_,
          lastU_dropTrail_pU _⟩
  cases hh : headU (dropTrail pU ((runsGo pNA false (l.map pyLowerChar)).dropWhile pU)) with
  | false => rfl
  | true =>
    have := headU_dropTrail pU _ hh
    rw [headU_dropWhile_pU] at this
    cases this

/-- Normalization acts as the identity on lists already in normal form. -/
theorem normL_fix (l : List Char) (h1 : okAU pNA l = true) (h2 : noDU l = true)
    (h3 : headU l = false) (h4 : lastU l = false) : normL l = l := by
  unfold normL stripBoth
  rw [map_pyLowerChar_fix l h1,
      runsGo_fix pNA (by decide) l false (by simp) h1 h2,
      runsGo_fix pU (by decide) l false (by simp) (okAU_pU_true l) h2,
      dropWhile_pU_fix l h3, dropTrail_pU_fix l h4]

/-- C9: The stem normalization function `_norm` is idempotent: for every
string `s`, `_norm(_norm(s)) = _norm(s)`; equivalently, applying
normalization to a stem already in lowercase alphanumeric-plus-underscore
normal form returns it unchanged. -/
theorem norm_idempotent (s : String) : norm (norm s) = norm s := by
  have h := normL_props s.data
  show String.mk (normL (norm s).data) = norm s
  have hd : (norm s).data = normL s.data := rfl
  rw [hd, normL_fix _ h.1 h.2.1 h.2.2.1 h.2.2.2]
  rfl

/-! ## Lemmas about list search and the resolver's control flow -/

theorem findSome?_eq_none_of_all {α β : Type} (f : α → Option β) :
    ∀ l : List α, (∀ x ∈ l, f x = none) → l.findSome? f = none := by
  intro l
  induction l with
  | nil => intro _; rfl
  | cons a t ih =>
    intro h
    rw [List.findSome?_cons, h a (List.mem_cons_self a t)]
    exact ih (fun x hx => h x (List.mem_cons_of_mem a hx))

theorem findSome?_first {α β : Type} (f : α → Option β) :
    ∀ (l : List α) (i : Nat) (hi : i < l.length) (b : β),
      (∀ j (hj : j < i), f (l.get ⟨j, Nat.lt_trans hj hi⟩) = none) →
      f (l.get ⟨i, hi⟩) = some b → l.findSome? f = some b := by
  intro l
  induction l with
  | nil => intro i hi; simp at hi
  | cons a t ih =>
    intro i hi b hbefore hsome
    cases i with
    | zero =>
      rw [List.findSome?_cons]
      have ha : f a = some b := hsome
      rw [ha]
    | succ j =>
      have ha : f a = none := hbefore 0 (Nat.succ_pos j)
      rw [List.findSome?_cons, ha]
      exact ih j (Nat.lt_of_succ_lt_succ hi) b
        (fun k hk => hbefore (k + 1) (Nat.succ_lt_succ hk)) hsome

theorem mem_of_mem_dedupStr {t : String} :
    ∀ {l : List String}, t ∈ dedupStr l → t ∈ l := by
  intro l
  induction l with
  | nil => intro h; exact h
  | cons a as ih =>
    intro h
    rw [show dedupStr (a :: as) =
        if as.contains a then dedupStr as else a :: dedupStr as from rfl] at h
    by_cases hc : as.contains a = true
    · rw [if_pos hc] at h
      exact List.mem_cons_of_mem a (ih h)
    · rw [if_neg hc] at h
      rcases List.mem_cons.mp h with h | h
      · rw [h]
        exact List.mem_cons_self a as
      · exact List.mem_cons_of_mem a (ih h)

theorem startsWithL_length :
    ∀ (pat l : List Char), startsWithL pat l = true → pat.length ≤ l.length := by
  intro pat
  induction pat with
  | nil => intro l _; simp
  | cons p ps ih =>
    intro l h
    cases l with
    | nil => simp [startsWithL] at h
    | cons c cs =>
      rw [show startsWithL (p :: ps) (c :: cs) = (p == c && startsWithL ps cs)
        from rfl, Bool.and_eq_true] at h
      simpa using ih cs h.2

theorem exact_in_none (fs : FS) (sn : List String) : exact_in fs none sn = none := rfl

theorem loose_in_none (fs : FS) (stems : List String) :
    loose_in fs none stems = none := rfl

theorem csvOrSearch_some (fs : FS) (cv subdir a c s lb : String)
    (d : Option String) (kind : String) :
    csvOrSearch fs (some cv) subdir a c s lb d kind =
      if pyStrip cv ≠ "" ∧ pyLower (pyStrip cv) ≠ "nan" then
        (if (strStartsWith (pyStrip cv) "http://" ||
              strStartsWith (pyStrip cv) "https://") = true
         then some (pyStrip cv)
         else
           match probeRoots fs (csvRoots kind subdir) (pyStrip cv) with
           | some p => some (renderPath p)
           | none => none)
      else localSearch fs subdir a c s lb d kind := rfl

theorem csvOrSearch_none (fs : FS) (subdir a c s lb : String)
    (d : Option String) (kind : String) :
    csvOrSearch fs none subdir a c s lb d kind =
      localSearch fs subdir a c s lb d kind := rfl

/-- With both overrides absent (or non-string), `resolve_image` reduces to
the CSV/search stage. -/
theorem resolve_image_no_override (fs : FS) (csv : Option String)
    (subdir a c s lb : String) (d : Option String) :
    resolve_image fs csv subdir a c s lb d none none =
      csvOrSearch fs csv subdir a c s lb d (kindOf subdir) := by
  unfold resolve_image
  cases h : (kindOf subdir == "dish") <;> simp [h]

/-! ## Claim C1 -/

/-- C1 counterexample: with an unresolvable non-URL CSV value the resolver
stops and yields `none`, while the very same call with the value absent
proceeds to step 3 and finds an image — refuting the claim that a
present-but-unresolvable value proceeds to the fuzzy search exactly as an
absent one. -/
theorem c1_counterexample :
    resolve_image fsExact (some "missing.jpg") "attractions" "a" "c" "S" "" none
      none none = none ∧
    resolve_image fsExact none "attractions" "a" "c" "S" "" none none none =
      some "images_verified/S/a_c_s.jpg" := by decide

/-- C1 (amended): for every call to `resolve_image` with no override where
the CSV image field is a non-empty, non-"nan" string that is not an
http(s) URL and the path does not exist under any of the four probed
roots, resolution stops with no result (`None`); it does not proceed to
step 3 (the filesystem fuzzy search). -/
theorem c1_unresolvable_csv_stops (fs : FS) (cv subdir a c s lb : String)
    (d : Option String)
    (h1 : pyStrip cv ≠ "") (h2 : pyLower (pyStrip cv) ≠ "nan")
    (h3 : strStartsWith (pyStrip cv) "http://" = false)
    (h4 : strStartsWith (pyStrip cv) "https://" = false)
    (h5 : probeRoots fs (csvRoots (kindOf subdir) subdir) (pyStrip cv) = none) :
    resolve_image fs (some cv) subdir a c s lb d none none = none := by
  rw [resolve_image_no_override, csvOrSearch_some, if_pos ⟨h1, h2⟩]
  simp [h3, h4, h5]

/-- Witness for C1's amended theorem at a concrete input. -/
theorem c1_witness :
    resolve_image fsEmpty (some "x.jpg") "attractions" "a" "c" "S" "" none
      none none = none :=
  c1_unresolvable_csv_stops fsEmpty "x.jpg" "attractions" "a" "c" "S" "" none
    (by decide) (by decide) (by decide) (by decide) (by decide)

/-! ## Claim C2 -/

/-- C2 counterexample: an override URL with trailing whitespace is
returned stripped, not exactly as given. -/
theorem c2_counterexample :
    resolve_image fsEmpty none "dishes" "" "" "" "" none
      (some "http://e.com/x.jpg ") none = some "http://e.com/x.jpg" ∧
    ("http://e.com/x.jpg" : String) ≠ "http://e.com/x.jpg " := by decide

/-- C2 (amended): whenever the kind-matching override is a string whose
stripped form is non-empty and not (case-insensitively, after stripping)
the literal "nan", the resolver returns the override stripped of
surrounding whitespace, regardless of the CSV image field and regardless
of filesystem contents. -/
theorem c2_override_wins (fs : FS) (csv : Option String)
    (subdir a c s lb : String) (d : Option String) (dOv aOv : Option String)
    (o : String)
    (h1 : pyStrip o ≠ "") (h2 : pyLower (pyStrip o) ≠ "nan")
    (hk : (if kindOf subdir == "dish" then dOv else aOv) = some o) :
    resolve_image fs csv subdir a c s lb d dOv aOv = some (pyStrip o) := by
  simp only [resolve_image]
  rw [hk]
  simp [h1, h2]

/-- Witness for C2's amended theorem at a concrete input. -/
theorem c2_witness :
    resolve_image fsExact (some "missing.jpg") "attractions" "a" "c" "S" ""
      none none (some " u ") = some (pyStrip " u ") :=
  c2_override_wins fsExact (some "missing.jpg") "attractions" "a" "c" "S" ""
    none none (some " u ") " u " (by decide) (by decide) (by decide)

/-! ## Claim C3 -/

/-- C3 counterexample: a file named exactly a stop word plus an image
extension is fuzzy-matched by `_loose_in` against a stem consisting only
of that stop word, through the underscore-free substring branch. -/
theorem c3_counterexample :
    loose_in fsTemple (some ["d"]) ["temple"] = some ["d", "temple.jpg"] ∧
    "temple" ∈ STOP_WORDS := by decide

/-- C3 (amended): stop-word tokens never contribute to a fuzzy-match token
intersection — every token produced by `_tokset` is a non-empty non-stop
word — but `_loose_in` may still match a stop-word-named file through the
flat-substring branch. -/
theorem c3_tokset_no_stop_words (s t : String) (h : t ∈ tokset s) :
    t ∉ STOP_WORDS ∧ t ≠ "" := by
  unfold tokset at h
  have h2 := mem_of_mem_dedupStr h
  rw [List.mem_filter] at h2
  obtain ⟨-, hp⟩ := h2
  rw [Bool.and_eq_true] at hp
  obtain ⟨hne, hns⟩ := hp
  refine ⟨?_, by simpa using hne⟩
  have hns' : STOP_WORDS.contains t = false := by simpa using hns
  simpa using hns'

/-- Witness for C3's amended theorem at a concrete input. -/
theorem c3_witness : ("golden" : String) ∉ STOP_WORDS ∧ ("golden" : String) ≠ "" :=
  c3_tokset_no_stop_words "golden_temple" "golden" (by decide)

/-! ## Claim C4 -/

/-- C4 counterexample: the code's candidate-stem list for a dish call
differs from the order the claim states: the `_dish` suffix is applied to
the attraction combinations and appended last, never to the dish-name
combinations. -/
theorem c4_counterexample :
    buildStems "h" "a" "c" "s" (some "d") "dish" =
      ["h", "d_c_s", "d_c", "d", "a_c_s", "a_c", "a",
       "a_c_s_dish", "a_c_dish", "a_dish"] ∧
    specDishStems "h" "a" "c" "s" "d" =
      ["h", "d_c_s", "d_c", "d", "d_c_s_dish", "d_c_dish", "d_dish",
       "a_c_s", "a_c", "a"] ∧
    "a_dish" ∈ buildStems "h" "a" "c" "s" (some "d") "dish" ∧
    "a_dish" ∉ specDishStems "h" "a" "c" "s" "d" ∧
    "d_dish" ∈ specDishStems "h" "a" "c" "s" "d" ∧
    "d_dish" ∉ buildStems "h" "a" "c" "s" (some "d") "dish" := by decide

/-- C4 (amended): for every dish-kind call with a non-empty dish name the
ordered candidate-stem list is: the caller hint (when non-empty); then
dish-name+city+state, dish-name+city, dish-name alone; then
attraction+city+state, attraction+city, attraction alone; then the
`_dish`-suffixed attraction combinations attraction+city+state+`_dish`,
attraction+city+`_dish`, attraction+`_dish` — in exactly that order. -/
theorem c4_stem_order (lb a c s dn : String) (hd : ¬ dn = "") :
    buildStems lb a c s (some dn) "dish" =
      (if lb = "" then [] else [lb]) ++
        [norm dn ++ "_" ++ norm c ++ "_" ++ norm s, norm dn ++ "_" ++ norm c,
         norm dn, norm a ++ "_" ++ norm c ++ "_" ++ norm s,
         norm a ++ "_" ++ norm c, norm a,
         norm a ++ "_" ++ norm c ++ "_" ++ norm s ++ "_dish",
         norm a ++ "_" ++ norm c ++ "_dish", norm a ++ "_dish"] := by
  simp [buildStems, stem_candidates, hd]

/-- Witness for C4's amended theorem at a concrete input. -/
theorem c4_witness :
    buildStems "" "a" "c" "s" (some "d") "dish" =
      (if ("" : String) = "" then [] else [""]) ++
        [norm "d" ++ "_" ++ norm "c" ++ "_" ++ norm "s",
         norm "d" ++ "_" ++ norm "c", norm "d",
         norm "a" ++ "_" ++ norm "c" ++ "_" ++ norm "s",
         norm "a" ++ "_" ++ norm "c", norm "a",
         norm "a" ++ "_" ++ norm "c" ++ "_" ++ norm "s" ++ "_dish",
         norm "a" ++ "_" ++ norm "c" ++ "_dish", norm "a" ++ "_dish"] :=
  c4_stem_order "" "a" "c" "s" "d" (by decide)

/-! ## Claim C5 -/

/-- C5: within the fuzzy-search step the passes run in fixed priority —
exact matches (city directory, then state directory) are always preferred
over any fuzzy match; only when both exact passes fail is the fuzzy pass
consulted (city first, then state); and the whole folder search is
retried against the secondary root `images/<subdir>` exactly when the
primary kind root yields nothing. -/
theorem c5_exact_priority (fs : FS) (base : List String) (st ci : String)
    (stems : List String) (kind : String) (sd : List String)
    (subdir a c s lb : String) (d : Option String)
    (hbf : pathExists fs base = true)
    (hsd : stateDirFind fs base st = some sd) :
    (∀ p, exact_in fs (cityDirFind fs sd ci) (stems.map norm) = some p →
      find_in_folder_strict fs base st ci stems kind = some p) ∧
    (exact_in fs (cityDirFind fs sd ci) (stems.map norm) = none →
      ∀ p, exact_in fs (some sd) (stems.map norm) = some p →
        find_in_folder_strict fs base st ci stems kind = some p) ∧
    (exact_in fs (cityDirFind fs sd ci) (stems.map norm) = none →
      exact_in fs (some sd) (stems.map norm) = none →
      ∀ p, loose_in fs (cityDirFind fs sd ci) stems = some p →
        find_in_folder_strict fs base st ci stems kind = some p) ∧
    (exact_in fs (cityDirFind fs sd ci) (stems.map norm) = none →
      exact_in fs (some sd) (stems.map norm) = none →
      loose_in fs (cityDirFind fs sd ci) stems = none →
      find_in_folder_strict fs base st ci stems kind =
        loose_in fs (some sd) stems) ∧
    (∀ p, find_in_folder_strict fs (kindRoot (kindOf subdir)) s c
        (buildStems lb a c s d (kindOf subdir)) (kindOf subdir) = some p →
      resolve_image fs none subdir a c s lb d none none =
        some (renderPath p)) ∧
    (find_in_folder_strict fs (kindRoot (kindOf subdir)) s c
        (buildStems lb a c s d (kindOf subdir)) (kindOf subdir) = none →
      resolve_image fs none subdir a c s lb d none none =
        (find_in_folder_strict fs ["images", subdir] s c
          (buildStems lb a c s d (kindOf subdir)) (kindOf subdir)).map
          renderPath) := by
  refine ⟨?_, ?_, ?_, ?_, ?_, ?_⟩
  · intro p hp
    simp [find_in_folder_strict, hbf, hsd, hp]
  · intro h0 p hp
    simp [find_in_folder_strict, hbf, hsd, h0, hp]
  · intro h0 h1 p hp
    simp [find_in_folder_strict, hbf, hsd, h0, h1, hp]
  · intro h0 h1 h2
    simp [find_in_folder_strict, hbf, hsd, h0, h1, h2]
  · intro p hp
    rw [resolve_image_no_override]
    simp [csvOrSearch, localSearch, hp]
  · intro h0
    rw [resolve_image_no_override]
    simp [csvOrSearch, localSearch, h0]

/-- Witness for C5 at a concrete input: an exact city-directory hit is the
result of the whole strict folder search. -/
theorem c5_witness :
    find_in_folder_strict fsCity ["images_verified"] "S" "c" ["a"] "attr" =
      some ["images_verified", "S", "c", "a.jpg"] :=
  (c5_exact_priority fsCity ["images_verified"] "S" "c" ["a"] "attr"
      ["images_verified", "S"] "attractions" "a" "c" "S" "" none
      (by decide) (by decide)).1
    ["images_verified", "S", "c", "a.jpg"] (by decide)

/-! ## Claim C6 -/

/-- C6: for a non-URL relative CSV path the four roots are probed in the
fixed order current-directory, kind-specific verified root,
`images/<subdir>`, `images`; the result is the path joined under the
first root where it exists, so a later root is never returned when an
earlier root also contains the path. -/
theorem c6_root_priority (fs : FS) (cv subdir a c s lb : String)
    (d : Option String) (i : Nat)
    (hi : i < (csvRoots (kindOf subdir) subdir).length)
    (h1 : pyStrip cv ≠ "") (h2 : pyLower (pyStrip cv) ≠ "nan")
    (h3 : strStartsWith (pyStrip cv) "http://" = false)
    (h4 : strStartsWith (pyStrip cv) "https://" = false)
    (h5 : isAbs (pyStrip cv) = false)
    (hex : pathExists fs ((csvRoots (kindOf subdir) subdir).getD i [] ++
      parsePath (pyStrip cv)) = true)
    (hbefore : ∀ j, j < i → pathExists fs
      ((csvRoots (kindOf subdir) subdir).getD j [] ++
        parsePath (pyStrip cv)) = false) :
    resolve_image fs (some cv) subdir a c s lb d none none =
      some (renderPath ((csvRoots (kindOf subdir) subdir).getD i [] ++
        parsePath (pyStrip cv))) := by
  rw [List.getD_eq_get _ _ hi] at hex ⊢
  have hp : probeRoots fs (csvRoots (kindOf subdir) subdir) (pyStrip cv) =
      some ((csvRoots (kindOf subdir) subdir).get ⟨i, hi⟩ ++
        parsePath (pyStrip cv)) := by
    unfold probeRoots
    apply findSome?_first _ _ i hi
    · intro j hj
      have hb := hbefore j hj
      rw [List.getD_eq_get _ _ (Nat.lt_trans hj hi)] at hb
      simp only [List.get_eq_getElem] at hb
      simp [h5, hb]
    · simp only [List.get_eq_getElem] at hex ⊢
      simp [h5, hex]
  rw [resolve_image_no_override, csvOrSearch_some, if_pos ⟨h1, h2⟩]
  simp [h3, h4, hp]

/-- Witness for C6 at a concrete input: the path resolves under the third
probed root `images/attractions` because the earlier roots lack it. -/
theorem c6_witness :
    resolve_image fsImgAttr (some "x.jpg") "attractions" "" "" "" "" none
      none none = some "images/attractions/x.jpg" := by
  have h := c6_root_priority fsImgAttr "x.jpg" "attractions" "" "" "" "" none 2
    (by decide) (by decide) (by decide) (by decide) (by decide) (by decide)
    (by decide) (by intro j hj; interval_cases j <;> decide)
  exact h.trans (by decide)

/-! ## Claim C7 -/

/-- C7: for every call with no override whose CSV field, after stripping,
starts with `http://` or `https://`, the resolver returns the stripped
value unchanged; the result does not depend on the filesystem (no
existence probe is performed). -/
theorem c7_url_passthrough (fs : FS) (cv subdir a c s lb : String)
    (d : Option String)
    (h : strStartsWith (pyStrip cv) "http://" = true ∨
      strStartsWith (pyStrip cv) "https://" = true) :
    resolve_image fs (some cv) subdir a c s lb d none none =
      some (pyStrip cv) := by
  have hlen : 7 ≤ (pyStrip cv).data.length := by
    rcases h with h | h
    · have hh := startsWithL_length "http://".data (pyStrip cv).data h
      have h7 : ("http://".data).length = 7 := rfl
      omega
    · have hh := startsWithL_length "https://".data (pyStrip cv).data h
      have h8 : ("https://".data).length = 8 := rfl
      omega
  have h1 : pyStrip cv ≠ "" := by
    intro he
    rw [he] at hlen
    have h0 : (("" : String).data).length = 0 := rfl
    omega
  have h2 : pyLower (pyStrip cv) ≠ "nan" := by
    intro he
    have h3 : (pyLower (pyStrip cv)).data.length = (pyStrip cv).data.length :=
      List.length_map _ _
    rw [he] at h3
    have hn : (("nan" : String).data).length = 3 := rfl
    omega
  rw [resolve_image_no_override, csvOrSearch_some, if_pos ⟨h1, h2⟩]
  rcases h with h | h <;> simp [h]

/-- Witness for C7 at a concrete input, over the empty filesystem. -/
theorem c7_witness :
    resolve_image fsEmpty (some " https://ex.com/a.png ") "attractions" "" ""
      "" "" none none none = some (pyStrip " https://ex.com/a.png ") :=
  c7_url_passthrough fsEmpty " https://ex.com/a.png " "attractions" "" "" "" ""
    none (Or.inr (by decide))

/-! ## Claim C8 -/

/-- C8: a CSV field that strips to the empty string or to "nan" (any
letter case) behaves identically to an absent value — the resolver skips
step 2 and proceeds to the fuzzy search — and when both folder searches
find nothing the result is `none`, never the literal string "nan". -/
theorem c8_nan_like_absent (fs : FS) (cv subdir a c s lb : String)
    (d : Option String)
    (h : pyStrip cv = "" ∨ pyLower (pyStrip cv) = "nan") :
    resolve_image fs (some cv) subdir a c s lb d none none =
      resolve_image fs none subdir a c s lb d none none ∧
    (find_in_folder_strict fs (kindRoot (kindOf subdir)) s c
        (buildStems lb a c s d (kindOf subdir)) (kindOf subdir) = none →
      find_in_folder_strict fs ["images", subdir] s c
        (buildStems lb a c s d (kindOf subdir)) (kindOf subdir) = none →
      resolve_image fs (some cv) subdir a c s lb d none none = none) := by
  have hguard : ¬ (pyStrip cv ≠ "" ∧ pyLower (pyStrip cv) ≠ "nan") := by
    rcases h with h | h <;> simp [h]
  constructor
  · rw [resolve_image_no_override, resolve_image_no_override, csvOrSearch_some,
        csvOrSearch_none, if_neg hguard]
  · intro hA hB
    rw [resolve_image_no_override, csvOrSearch_some, if_neg hguard]
    simp [localSearch, hA, hB]

/-- Witness for C8 at a concrete input: the string "NaN" acts like an
absent value and the overall result is `none`. -/
theorem c8_witness :
    (resolve_image fsEmpty (some "NaN") "attractions" "x" "y" "z" "" none
        none none =
      resolve_image fsEmpty none "attractions" "x" "y" "z" "" none none none) ∧
    resolve_image fsEmpty (some "NaN") "attractions" "x" "y" "z" "" none
      none none = none := by
  have h := c8_nan_like_absent fsEmpty "NaN" "attractions" "x" "y" "z" "" none
    (Or.inr (by decide))
  exact ⟨h.1, h.2 (by decide) (by decide)⟩

/-! ## Claim C10 -/

/-- C10: the state directory is mandatory — when the base root folder
does not exist, or no spelling variant of the state exists under it, the
strict folder search returns `none` regardless of what image files exist
elsewhere; the city directory alone is optional: when no city variant
exists the search falls back to the state directory alone. -/
theorem c10_state_dir_mandatory (fs : FS) (base : List String) (st ci : String)
    (stems : List String) (kind : String) :
    (pathExists fs base = false →
      find_in_folder_strict fs base st ci stems kind = none) ∧
    ((∀ v ∈ folder_variants st, pathExists fs (base ++ [v]) = false) →
      find_in_folder_strict fs base st ci stems kind = none) ∧
    (pathExists fs base = true → ∀ sd, stateDirFind fs base st = some sd →
      (∀ v ∈ folder_variants ci, pathExists fs (sd ++ [v]) = false) →
      find_in_folder_strict fs base st ci stems kind =
        match exact_in fs (some sd) (stems.map norm) with
        | some hit => some hit
        | none => loose_in fs (some sd) stems) := by
  refine ⟨?_, ?_, ?_⟩
  · intro h
    simp [find_in_folder_strict, h]
  · intro h
    have hsd : stateDirFind fs base st = none := by
      unfold stateDirFind
      apply findSome?_eq_none_of_all
      intro v hv
      simp [h v hv]
    by_cases hb : pathExists fs base = true
    · simp [find_in_folder_strict, hb, hsd]
    · have hb' : pathExists fs base = false := by simpa using hb
      simp [find_in_folder_strict, hb']
  · intro hb sd hsd hc
    have hcity : cityDirFind fs sd ci = none := by
      unfold cityDirFind
      apply findSome?_eq_none_of_all
      intro v hv
      simp [hc v hv]
    simp [find_in_folder_strict, hb, hsd, hcity, exact_in_none, loose_in_none]

/-- Witness for C10 at concrete inputs: missing base root, missing state
directory, and missing city directory with state-only fallback. -/
theorem c10_witness :
    find_in_folder_strict fsEmpty ["images_verified"] "S" "c" ["a"] "attr" =
      none ∧
    find_in_folder_strict fsRootOnly ["images_verified"] "S" "c" ["a"] "attr" =
      none ∧
    find_in_folder_strict fsExact ["images_verified"] "S" "nocity" ["zz"]
        "attr" =
      match exact_in fsExact (some ["images_verified", "S"]) (["zz"].map norm)
        with
      | some hit => some hit
      | none => loose_in fsExact (some ["images_verified", "S"]) ["zz"] := by
  refine ⟨?_, ?_, ?_⟩
  · exact (c10_state_dir_mandatory fsEmpty ["images_verified"] "S" "c" ["a"]
      "attr").1 (by decide)
  · exact (c10_state_dir_mandatory fsRootOnly ["images_verified"] "S" "c" ["a"]
      "attr").2.1 (by decide)
  · exact (c10_state_dir_mandatory fsExact ["images_verified"] "S" "nocity"
      ["zz"] "attr").2.2 (by decide) ["images_verified", "S"] (by decide)
      (by decide)

end AppImg
